import Mathlib

/-!
Shallow embedding of the `pass-age` tool (`src/main.rs`) and proofs about it.

The program shells out to `git blame -pL ,1 -- <file>.gpg` for each
discovered password file, parses the porcelain output for the
`author-time` timestamp and a `previous` marker, collects one
`BlameData` record per file, sorts/reverses the collected list, and
prints one line per record.

External collaborators are modelled by parameters:
  * the moment of measurement (`Utc::now()`) is an integer `now` in
    seconds since the epoch;
  * the spawned `git` process is a `GitOutput` value (exit status,
    stdout lines, stderr text);
  * the `chrono_humanize` formatter is a function `humanize : Int → String`.

Durations (`chrono::Duration`) are modelled as signed integers (seconds).
-/

namespace PassAge

/-- Rust `char::is_ascii_whitespace`: space, tab, line feed, form feed,
carriage return.  Used by `str::split_ascii_whitespace`. -/
def isAsciiWs (c : Char) : Bool :=
  c = ' ' || c = '\t' || c = '\n' || c = '\x0c' || c = '\r'

/-- Worker for `split_ascii_whitespace` over the character list: `cur`
accumulates the current (reversed) token. -/
def splitWsAux : List Char → List Char → List (List Char)
  | [], cur => if cur.isEmpty then [] else [cur.reverse]
  | c :: rest, cur =>
    if isAsciiWs c then
      if cur.isEmpty then splitWsAux rest [] else cur.reverse :: splitWsAux rest []
    else splitWsAux rest (c :: cur)

/-- Rust `str::split_ascii_whitespace`: the maximal runs of
non-whitespace characters, in order, with no empty tokens. -/
def splitAsciiWhitespace (s : String) : List String :=
  (splitWsAux s.data []).map fun l => ⟨l⟩

/-- Rust `line.split_ascii_whitespace().last()`. -/
def lastToken (s : String) : Option String :=
  (splitAsciiWhitespace s).getLast?

/-- Rust `str::starts_with`, phrased on the underlying character lists. -/
def rsStartsWith (s pre : String) : Bool :=
  pre.data.isPrefixOf s.data

/-- Numeric value of a list of decimal digits (most significant first). -/
def digitsToNat (l : List Char) : Nat :=
  l.foldl (fun n c => 10 * n + (c.toNat - '0'.toNat)) 0

/-- `NaiveDateTime::MAX.timestamp()` in chrono: the largest seconds
value representable by a `NaiveDateTime` (23:59:59 of year 262143). -/
def naiveDateTimeMaxTimestamp : Int := 8210298412799

/-- `NaiveDateTime::parse_from_str(s, "%s")`: chrono scans the timestamp
field as an unsigned run of decimal digits (`signed = false`, so no `-`
or `+` is accepted), must consume the whole string, errors on `i64`
overflow during accumulation, and `to_naive_datetime_with_offset`
rejects seconds beyond `NaiveDateTime::MAX`.  For an all-digit string
the overflow check and the range check collapse to the single upper
bound below (the `i64` bound is larger). -/
def parseTimestamp (s : String) : Option Int :=
  if s.data ≠ [] ∧ s.data.all Char.isDigit ∧
      (digitsToNat s.data : Int) ≤ naiveDateTimeMaxTimestamp then
    some (digitsToNat s.data)
  else none

/-- The record built for each password file (`struct BlameData`):
store-relative path with the `.gpg` suffix stripped, elapsed duration
since the attributed change, and whether a `previous` header was seen. -/
structure BlameData where
  pass_filename : String
  duration : Int
  found_previous : Bool
deriving DecidableEq, Repr

/-- The captured output of the spawned `git blame` process
(`std::process::Output`): exit status, stdout split into lines, stderr
text. -/
structure GitOutput where
  success : Bool
  stdoutLines : List String
  stderr : String

/-- The `for line in git_stdout.lines()` loop of `get_password_age`:
threads the mutable state `duration : Option Int` (last `author-time`
seen, already converted to `now - t`) and `found_previous : Bool`; a
malformed `author-time` line aborts with an error (the `?` operator). -/
def blameLoop (now : Int) : List String → Option Int → Bool →
    Except String (Option Int × Bool)
  | [], dur, fp => .ok (dur, fp)
  | line :: rest, dur, fp =>
    if rsStartsWith line "author-time" then
      match lastToken line with
      | none => .error ("Unable to get author-time value from: " ++ line)
      | some tok =>
        match parseTimestamp tok with
        | none => .error ("Unable to parse timestamp: " ++ tok)
        | some t => blameLoop now rest (some (now - t)) fp
    else if rsStartsWith line "previous" then
      blameLoop now rest dur true
    else
      blameLoop now rest dur fp

/-- `get_password_age` after the `git` invocation: a non-zero exit
surfaces the process's stderr as the error; otherwise the stdout lines
are scanned, and a run with no `author-time` line fails with
`Unable to find the author-time`. -/
def get_password_age (pass_filename : String) (now : Int) (git : GitOutput) :
    Except String BlameData :=
  if git.success then
    match blameLoop now git.stdoutLines none false with
    | .error e => .error e
    | .ok (some d, fp) => .ok ⟨pass_filename, d, fp⟩
    | .ok (none, _) => .error "Unable to find the author-time"
  else
    .error git.stderr

/-- The `--sort-by` value (`enum SortBy { Name, Time }` in `main.rs`). -/
inductive SortBy where
  | name
  | time
deriving DecidableEq, Repr

/-- The fields of `struct Args` that the aggregation pipeline reads.
`reverse` holds the parsed flag value; `since` is the raw `--since`
string, which `main.rs` forwards to `git blame` and echoes in the
no-history output line. -/
structure Config where
  sort_by : SortBy
  reverse : Bool
  since : Option String

/-- The clap parse of the `--reverse` flag: `ArgAction::SetFalse` means
the field defaults to `true` and is set to `false` when `--reverse` is
given on the command line. -/
def argsReverse (reverseGiven : Bool) : Bool := !reverseGiven

/-- The comparator passed to `data.sort_by(|a, b| a.duration.cmp(&b.duration))`. -/
def durationLe (a b : BlameData) : Bool := a.duration ≤ b.duration

/-- The sort step of `main`: Rust's stable `sort_by` on `duration` when
`--sort-by=time`, and no sorting at all for `--sort-by=name` (the code
relies on discovery order already being name-sorted). -/
def sortData (sb : SortBy) (data : List BlameData) : List BlameData :=
  if sb = .time then data.mergeSort durationLe else data

/-- The `while let Some(blame_data) = data.pop()` print loop consumes the
vector from the back, so elements are visited in reverse list order. -/
def popOrder (l : List BlameData) : List BlameData := l.reverse

/-- One rendered output line (the body of the print loop).  With a
`previous` header the line is `<path> last modified <humanized>`;
without one it is `<path> hasn't been updated, <since=... | it was added
to the store>` — the humanized duration is not printed in that branch. -/
def renderLine (humanize : Int → String) (since : Option String) (b : BlameData) :
    String :=
  if b.found_previous then
    b.pass_filename ++ " last modified " ++ humanize b.duration
  else
    let not_modified_since :=
      match since with
      | some s => "since=" ++ s
      | none => "it was added to the store"
    b.pass_filename ++ " hasn't been updated, " ++ not_modified_since

/-- The record order in which `main` prints: sort (by name = identity),
then `data.reverse()` when the parsed `reverse` field is true, then the
back-to-front pop loop. -/
def outputRecords (cfg : Config) (data : List BlameData) : List BlameData :=
  let sorted := sortData cfg.sort_by data
  popOrder (if cfg.reverse then sorted.reverse else sorted)

/-- The full rendered output of `main` on the collected records: every
record yields exactly one line; there is no retention filter anywhere. -/
def outputLines (humanize : Int → String) (cfg : Config) (data : List BlameData) :
    List String :=
  (outputRecords cfg data).map (renderLine humanize cfg.since)

/-- One item yielded by the `glob` iterator: a matched path or a glob
error (`match entry { Ok(entry) => ..., Err(e) => ... }`). -/
inductive GlobEntry where
  | ok (path : String)
  | err (msg : String)

/-- The body of the per-entry loop in `main`, without the `take(5)`
truncation: each entry contributes either one `BlameData` record
(pushed onto `data`) or one message printed to stderr; a failure never
stops the remaining entries from being processed.  `blame` abstracts
`get_password_age` applied to a matched path. -/
def processEntries (blame : String → Except String BlameData) :
    List GlobEntry → List BlameData × List String
  | [] => ([], [])
  | e :: rest =>
    let step : List BlameData × List String :=
      match e with
      | .ok p =>
        match blame p with
        | .ok b => ([b], [])
        | .error m => ([], [m])
      | .err m => ([], [m])
    let tail := processEntries blame rest
    (step.1 ++ tail.1, step.2 ++ tail.2)

/-- The per-pattern loop of `main`: the glob iterator is truncated with
`.take(5)` before the entries are processed. -/
def processSearchPath (blame : String → Except String BlameData)
    (entries : List GlobEntry) : List BlameData × List String :=
  processEntries blame (entries.take 5)

/-- Written from the spec's words: the descending lexicographic
comparator on paths. -/
def descLe (a b : String) : Bool := decide (b ≤ a)

/-- Written from the spec's words, for comparison with the program:
sorting the paths in descending lexicographic order. -/
def sortDescendingSpec (paths : List String) : List String :=
  paths.mergeSort descLe

lemma head_of_isPrefixOf {a : Char} {pre l : List Char}
    (h : (a :: pre).isPrefixOf l = true) : ∃ tl, l = a :: tl := by
  cases l with
  | nil => simp [List.isPrefixOf] at h
  | cons b bs =>
    simp [List.isPrefixOf] at h
    exact ⟨bs, by rw [h.1]⟩

/-- A line that starts with `author-time` does not start with `previous`:
the two header prefixes begin with different characters. -/
lemma not_previous_of_author {l : String}
    (h : rsStartsWith l "author-time" = true) :
    rsStartsWith l "previous" = false := by
  unfold rsStartsWith at h ⊢
  have ha : "author-time".data = 'a' :: "uthor-time".data := rfl
  have hp : "previous".data = 'p' :: "revious".data := rfl
  rw [ha] at h
  rw [hp]
  obtain ⟨tl, htl⟩ := head_of_isPrefixOf h
  rw [htl]
  have hc : ('p' == 'a') = false := by decide
  simp [List.isPrefixOf, hc]

/-- Lines with no `author-time` header pass through the scan loop
unchanged except that any `previous` header switches the flag on. -/
lemma blameLoop_append_no_author (now : Int) (l : List String)
    (h : ∀ x ∈ l, rsStartsWith x "author-time" = false) (rest : List String)
    (dur : Option Int) (fp : Bool) :
    blameLoop now (l ++ rest) dur fp =
      blameLoop now rest dur (fp || l.any fun x => rsStartsWith x "previous") := by
  induction l generalizing fp with
  | nil => simp
  | cons x xs ih =>
    have hx : rsStartsWith x "author-time" = false := h x (List.mem_cons_self x xs)
    have h' : ∀ y ∈ xs, rsStartsWith y "author-time" = false :=
      fun y hy => h y (List.mem_cons_of_mem x hy)
    cases hp : rsStartsWith x "previous" with
    | true =>
      simp only [List.cons_append, blameLoop, hx, hp, Bool.false_eq_true, if_false,
        if_true, List.any_cons, List.append_eq]
      rw [ih h']
      simp
    | false =>
      simp only [List.cons_append, blameLoop, hx, hp, Bool.false_eq_true, if_false,
        List.any_cons, List.append_eq]
      rw [ih h']
      simp

/-- Characterization of a successful parse: raw output with exactly one
`author-time` line whose final token parses as `t` yields the record
with elapsed `now - t` and the `previous`-flag computed over all lines. -/
lemma get_password_age_ok (name : String) (now t : Int) (stderr : String)
    (pre post : List String) (l tok : String)
    (hpre : ∀ x ∈ pre, rsStartsWith x "author-time" = false)
    (hpost : ∀ x ∈ post, rsStartsWith x "author-time" = false)
    (hl : rsStartsWith l "author-time" = true)
    (htok : lastToken l = some tok)
    (ht : parseTimestamp tok = some t) :
    get_password_age name now ⟨true, pre ++ l :: post, stderr⟩ =
      .ok ⟨name, now - t,
        (pre ++ l :: post).any fun x => rsStartsWith x "previous"⟩ := by
  unfold get_password_age
  simp only [if_true]
  rw [blameLoop_append_no_author now pre hpre]
  simp only [blameLoop, hl, if_true, htok, ht]
  rw [show post = post ++ [] by simp, blameLoop_append_no_author now post hpost]
  simp only [blameLoop]
  have hlp : rsStartsWith l "previous" = false := not_previous_of_author hl
  simp [List.any_append, List.any_cons, hlp, Bool.or_assoc]

/-- The fixed not-found message is never a malformed-timestamp message,
whatever the offending token: the two differ within their first 27
characters. -/
lemma find_msg_ne_parse_msg (tok : String) :
    "Unable to find the author-time" ≠ "Unable to parse timestamp: " ++ tok := by
  intro h
  have h2 : ("Unable to find the author-time" : String).data =
      "Unable to parse timestamp: ".data ++ tok.data := congrArg String.data h
  have h3 := congrArg (fun l => List.take 27 l) h2
  simp only at h3
  rw [List.take_left'] at h3
  · exact absurd h3 (by decide)
  · decide

lemma durationLe_trans (a b c : BlameData)
    (hab : durationLe a b) (hbc : durationLe b c) : durationLe a c := by
  simp [durationLe] at *
  omega

lemma durationLe_total (a b : BlameData) : durationLe a b || durationLe b a := by
  simp [durationLe]
  omega

/-- The time sort permutes the collected records and nothing else. -/
lemma sortData_time_perm (l : List BlameData) : (sortData .time l).Perm l := by
  simpa [sortData] using List.mergeSort_perm l durationLe

/-- The time sort orders records by signed comparison of durations. -/
lemma sortData_time_sorted (l : List BlameData) :
    (sortData .time l).Pairwise fun a b => a.duration ≤ b.duration := by
  have h := List.sorted_mergeSort durationLe_trans durationLe_total l
  simp only [sortData, if_true]
  exact h.imp fun hab => by simpa [durationLe] using hab

/-- Each glob entry contributes exactly one record or one reported
error, and entries are processed independently of one another. -/
lemma processEntries_append (blame : String → Except String BlameData)
    (l₁ l₂ : List GlobEntry) :
    processEntries blame (l₁ ++ l₂) =
      ((processEntries blame l₁).1 ++ (processEntries blame l₂).1,
       (processEntries blame l₁).2 ++ (processEntries blame l₂).2) := by
  induction l₁ with
  | nil => simp [processEntries]
  | cons e rest ih => simp [processEntries, ih]

lemma processEntries_count (blame : String → Except String BlameData)
    (l : List GlobEntry) :
    (processEntries blame l).1.length + (processEntries blame l).2.length =
      l.length := by
  induction l with
  | nil => simp [processEntries]
  | cons e rest ih =>
    cases e with
    | ok p =>
      cases hb : blame p with
      | ok b => simp [processEntries, hb]; omega
      | error m => simp [processEntries, hb]; omega
    | err m => simp [processEntries]; omega

example : parseTimestamp "1700000000" = some 1700000000 := by decide
example : parseTimestamp "-5" = none := by decide
example : parseTimestamp "8210298412799" = some 8210298412799 := by decide
example : parseTimestamp "8210298412800" = none := by decide
example : parseTimestamp "abc" = none := by decide
example : parseTimestamp "12a" = none := by decide
example : lastToken "author-time 1700000000" = some "1700000000" := by decide
example :
    get_password_age "p" 1700000010
      ⟨true, ["author-time 1700000000", "previous deadbeef f.gpg"], ""⟩ =
      .ok ⟨"p", 10, true⟩ := rfl

/-- C1 (counterexample): the token `18446744073709551616` (2^64) is a
base-10 integer, yet the program fails with the malformed-timestamp
error instead of producing a record: chrono's `%s` rejects timestamps
beyond the representable range, so "final token is a base-10 integer"
does not suffice for a successful parse. -/
theorem parse_unbounded_token_counterexample :
    get_password_age "p" 0
      ⟨true, ["author-time 18446744073709551616"], ""⟩ =
      .error "Unable to parse timestamp: 18446744073709551616" ∧
    "18446744073709551616".data ≠ [] ∧
    "18446744073709551616".data.all Char.isDigit = true :=
  ⟨rfl, by decide, by decide⟩

/-- C1 (amended): for raw blame text with exactly one `author-time` line
whose final whitespace-separated token is a base-10 integer that the
timestamp parse accepts (an unsigned digit run within chrono's
`NaiveDateTime` range, value ≤ 8210298412799), the parser succeeds with
elapsed duration `now - t`, and the `found_previous` flag is true
exactly when some line of the text begins with `previous`. -/
theorem parse_single_author_time_ok (name : String) (now t : Int)
    (stderr : String) (pre post : List String) (l tok : String)
    (hpre : ∀ x ∈ pre, rsStartsWith x "author-time" = false)
    (hpost : ∀ x ∈ post, rsStartsWith x "author-time" = false)
    (hl : rsStartsWith l "author-time" = true)
    (htok : lastToken l = some tok)
    (ht : parseTimestamp tok = some t) :
    get_password_age name now ⟨true, pre ++ l :: post, stderr⟩ =
      .ok ⟨name, now - t,
        (pre ++ l :: post).any fun x => rsStartsWith x "previous"⟩ ∧
    (((pre ++ l :: post).any fun x => rsStartsWith x "previous") = true ↔
      ∃ x ∈ pre ++ l :: post, rsStartsWith x "previous" = true) :=
  ⟨get_password_age_ok name now t stderr pre post l tok hpre hpost hl htok ht,
   List.any_eq_true⟩

/-- Witness for C1 at a concrete input. -/
theorem parse_single_author_time_ok_witness :
    get_password_age "p" 1700000010
      ⟨true, ["boundary 1", "author-time 1700000000", "previous abc"], ""⟩ =
      .ok ⟨"p", 10, true⟩ := by
  have h := (parse_single_author_time_ok "p" 1700000010 1700000000 ""
    ["boundary 1"] ["previous abc"] "author-time 1700000000" "1700000000"
    (by decide) (by decide) (by decide) (by decide) (by decide)).1
  simpa using h

/-- C7: raw blame text in which no line begins with `author-time` makes
parsing fail with the `Unable to find the author-time` condition, and
that condition is distinct from the malformed-author-time-line failure
message, whatever the offending token. -/
theorem parse_no_author_time_fails (name : String) (now : Int)
    (stderr : String) (lines : List String)
    (h : ∀ x ∈ lines, rsStartsWith x "author-time" = false) :
    get_password_age name now ⟨true, lines, stderr⟩ =
      .error "Unable to find the author-time" ∧
    ∀ tok : String,
      "Unable to find the author-time" ≠ "Unable to parse timestamp: " ++ tok := by
  refine ⟨?_, find_msg_ne_parse_msg⟩
  unfold get_password_age
  simp only [if_true]
  rw [show lines = lines ++ [] by simp, blameLoop_append_no_author now lines h]
  simp [blameLoop]

/-- Witness for C7 at a concrete input. -/
theorem parse_no_author_time_fails_witness :
    get_password_age "p" 0 ⟨true, ["author deadbeef", "summary x"], ""⟩ =
      .error "Unable to find the author-time" :=
  (parse_no_author_time_fails "p" 0 "" ["author deadbeef", "summary x"]
    (by decide)).1

/-- Either sort key yields a permutation of the collected records. -/
lemma sortData_perm (sb : SortBy) (l : List BlameData) :
    (sortData sb l).Perm l := by
  cases sb with
  | name => simp [sortData]
  | time => exact sortData_time_perm l

/-- The printed records are a permutation of the collected records, for
every configuration: nothing is ever dropped. -/
lemma outputRecords_perm (cfg : Config) (data : List BlameData) :
    (outputRecords cfg data).Perm data := by
  unfold outputRecords popOrder
  cases hr : cfg.reverse with
  | true =>
    simp only [if_true]
    exact ((sortData cfg.sort_by data).reverse.reverse_perm.trans
      (sortData cfg.sort_by data).reverse_perm).trans (sortData_perm cfg.sort_by data)
  | false =>
    simp only [Bool.false_eq_true, if_false]
    exact (sortData cfg.sort_by data).reverse_perm.trans (sortData_perm cfg.sort_by data)

/-- C2 (code evidence): the pipeline in `main.rs` has no retention
filter: every collected record is rendered, whatever the configuration —
in particular, with `--since=30days`, a record whose elapsed duration
(10 days) is below the threshold is still printed. -/
theorem no_retention_filter :
    (∀ (humanize : Int → String) (cfg : Config) (data : List BlameData),
      (outputLines humanize cfg data).length = data.length) ∧
    outputLines (fun _ => "about 1 year ago")
      ⟨.name, argsReverse false, some "30days"⟩
      [⟨"A", 34560000, true⟩, ⟨"B", 864000, false⟩] =
      ["A last modified about 1 year ago", "B hasn't been updated, since=30days"] := by
  refine ⟨fun humanize cfg data => ?_, rfl⟩
  unfold outputLines
  rw [List.length_map]
  exact (outputRecords_perm cfg data).length_eq

/-- C3 (counterexample): for a record with no prior revision the program
prints `<path> hasn't been updated, it was added to the store`, which is
not the claimed `<path> hasn't been modified, since it was added to the
store, <humanized elapsed>` line — no humanized duration is printed. -/
theorem render_no_history_counterexample :
    renderLine (fun _ => "10 days ago") none ⟨"a", 864000, false⟩ =
      "a hasn't been updated, it was added to the store" ∧
    "a hasn't been updated, it was added to the store" ≠
      "a hasn't been modified, since it was added to the store, 10 days ago" :=
  ⟨rfl, by decide⟩

/-- C3 (amended): every surviving (= every collected) record yields
exactly one line; with a prior revision the line is
`<path> last modified <humanized elapsed>`; without one it is
`<path> hasn't been updated, it was added to the store` (or
`... hasn't been updated, since=<s>` when `--since <s>` was given),
carrying no humanized duration. -/
theorem render_one_line_per_record (humanize : Int → String) (cfg : Config)
    (data : List BlameData) :
    (outputRecords cfg data).Perm data ∧
    outputLines humanize cfg data =
      (outputRecords cfg data).map (renderLine humanize cfg.since) ∧
    (∀ b : BlameData, b.found_previous = true →
      renderLine humanize cfg.since b =
        b.pass_filename ++ " last modified " ++ humanize b.duration) ∧
    (∀ b : BlameData, b.found_previous = false → cfg.since = none →
      renderLine humanize cfg.since b =
        b.pass_filename ++ " hasn't been updated, it was added to the store") ∧
    (∀ (b : BlameData) (s : String), b.found_previous = false →
      cfg.since = some s →
      renderLine humanize cfg.since b =
        b.pass_filename ++ " hasn't been updated, " ++ ("since=" ++ s)) := by
  refine ⟨outputRecords_perm cfg data, rfl, ?_, ?_, ?_⟩
  · intro b hb
    simp [renderLine, hb]
  · intro b hb hs
    simp [renderLine, hb, hs]
    rw [String.append_assoc]
    exact congrArg (fun t => b.pass_filename ++ t) (by decide)
  · intro b s hb hs
    simp [renderLine, hb, hs]

/-- Witness for C3 (amended) at concrete records. -/
theorem render_one_line_per_record_witness :
    renderLine (fun _ => "3 days ago") none ⟨"a", 5, true⟩ =
      "a" ++ " last modified " ++ "3 days ago" ∧
    renderLine (fun _ => "3 days ago") none ⟨"b", 5, false⟩ =
      "b" ++ " hasn't been updated, it was added to the store" := by
  have h := render_one_line_per_record (fun _ => "3 days ago")
    ⟨.name, true, none⟩ []
  exact ⟨h.2.2.1 ⟨"a", 5, true⟩ rfl, h.2.2.2.1 ⟨"b", 5, false⟩ rfl rfl⟩

/-- C4: each search pattern's glob iterator is truncated with `take(5)`:
entries past the first five are silently ignored (they influence neither
the records nor the reported errors), and one pattern contributes at most
5 records and reported errors combined. -/
theorem glob_take_five (blame : String → Except String BlameData)
    (entries extra : List GlobEntry) (h : 5 ≤ entries.length) :
    processSearchPath blame (entries ++ extra) =
      processSearchPath blame entries ∧
    (processSearchPath blame entries).1.length +
      (processSearchPath blame entries).2.length ≤ 5 := by
  constructor
  · unfold processSearchPath
    rw [List.take_append_eq_append_take, Nat.sub_eq_zero_of_le h]
    simp
  · unfold processSearchPath
    have hc := processEntries_count blame (entries.take 5)
    have hlen : (entries.take 5).length ≤ 5 := by
      simp
    omega

/-- Witness for C4: a sixth matching entry does not change the result. -/
theorem glob_take_five_witness :
    processSearchPath (fun _ => .error "x")
      [.ok "a", .ok "b", .ok "c", .ok "d", .ok "e", .ok "f"] =
      processSearchPath (fun _ => .error "x")
        [.ok "a", .ok "b", .ok "c", .ok "d", .ok "e"] := by
  have h := glob_take_five (fun _ => .error "x")
    [.ok "a", .ok "b", .ok "c", .ok "d", .ok "e"] [.ok "f"] (by decide)
  simpa using h.1

lemma descLe_trans (a b c : String) (hab : descLe a b) (hbc : descLe b c) :
    descLe a c := by
  simp only [descLe, decide_eq_true_eq] at *
  exact le_trans hbc hab

lemma descLe_total (a b : String) : descLe a b || descLe b a := by
  simp only [descLe, Bool.or_eq_true, decide_eq_true_eq]
  exact le_total b a

/-- C5: on name-sorted records with distinct paths, giving `--reverse`
prints the paths in descending lexicographic order, and the printed
order with `--reverse` is the exact inversion of the printed order
without it. -/
theorem name_sort_reverse (data : List BlameData) (since : Option String)
    (hsorted : data.Pairwise fun a b => a.pass_filename ≤ b.pass_filename)
    (_hnodup : (data.map BlameData.pass_filename).Nodup) :
    (outputRecords ⟨.name, argsReverse true, since⟩ data).map
        BlameData.pass_filename =
      sortDescendingSpec (data.map BlameData.pass_filename) ∧
    ∀ (d : List BlameData) (sb : SortBy) (s : Option String),
      outputRecords ⟨sb, argsReverse true, s⟩ d =
        (outputRecords ⟨sb, argsReverse false, s⟩ d).reverse := by
  constructor
  · have h1 : outputRecords ⟨.name, argsReverse true, since⟩ data =
        data.reverse := by
      simp [outputRecords, argsReverse, popOrder, sortData]
    rw [h1]
    have hp : (data.map BlameData.pass_filename).Pairwise (· ≤ ·) :=
      hsorted.map BlameData.pass_filename fun a b hab => hab
    have hrev : data.reverse.map BlameData.pass_filename =
        (data.map BlameData.pass_filename).reverse := by
      simp
    rw [hrev]
    unfold sortDescendingSpec
    haveI : IsAntisymm String fun a b => b ≤ a :=
      ⟨fun a b h1 h2 => le_antisymm h2 h1⟩
    have hs1 : List.Pairwise (fun a b : String => b ≤ a)
        (data.map BlameData.pass_filename).reverse :=
      List.pairwise_reverse.mpr hp
    have hperm : (data.map BlameData.pass_filename).reverse.Perm
        ((data.map BlameData.pass_filename).mergeSort descLe) :=
      (data.map BlameData.pass_filename).reverse_perm.trans
        (List.mergeSort_perm (data.map BlameData.pass_filename) _).symm
    have hs2 : List.Pairwise (fun a b : String => b ≤ a)
        ((data.map BlameData.pass_filename).mergeSort descLe) :=
      (List.sorted_mergeSort descLe_trans descLe_total
        (data.map BlameData.pass_filename)).imp fun hab => by
          simpa [descLe] using hab
    exact List.eq_of_perm_of_sorted hperm hs1 hs2
  · intro d sb s
    simp [outputRecords, argsReverse, popOrder]

/-- Witness for C5 at a concrete name-sorted store. -/
theorem name_sort_reverse_witness :
    (outputRecords ⟨.name, argsReverse true, none⟩
        [⟨"a", 1, true⟩, ⟨"b", 2, false⟩]).map BlameData.pass_filename =
      sortDescendingSpec (List.map BlameData.pass_filename
        [⟨"a", 1, true⟩, ⟨"b", 2, false⟩]) := by
  have h := (name_sort_reverse [⟨"a", 1, true⟩, ⟨"b", 2, false⟩] none
    (by simp [List.pairwise_cons]; decide) (by decide)).1
  exact h

/-- C6: the `--sort-by=time` sort is stable and total: records with
equal elapsed duration keep their discovery order (the filter of any
fixed duration is unchanged), and the output is a permutation of the
input ordered by signed duration. -/
theorem time_sort_stable (l : List BlameData) (d : Int) :
    (sortData .time l).filter (fun b => decide (b.duration = d)) =
      l.filter (fun b => decide (b.duration = d)) ∧
    (sortData .time l).Perm l ∧
    (sortData .time l).Pairwise fun a b => a.duration ≤ b.duration := by
  refine ⟨?_, sortData_time_perm l, sortData_time_sorted l⟩
  have hsub : List.Sublist (l.filter fun b => decide (b.duration = d)) l :=
    List.filter_sublist l
  have hpw : (l.filter (fun b => decide (b.duration = d))).Pairwise
      fun a b => durationLe a b = true := by
    apply List.pairwise_of_forall_mem_list
    intro a ha b hb
    have ha' := (List.mem_filter.mp ha).2
    have hb' := (List.mem_filter.mp hb).2
    simp only [decide_eq_true_eq] at ha' hb'
    simp [durationLe, ha', hb']
  have hsub2 : List.Sublist (l.filter fun b => decide (b.duration = d))
      (sortData .time l) := by
    simpa [sortData] using
      List.sublist_mergeSort durationLe_trans durationLe_total hpw hsub
  have hfp : (l.filter (fun b => decide (b.duration = d))).filter
      (fun b => decide (b.duration = d)) =
      l.filter (fun b => decide (b.duration = d)) := by
    rw [List.filter_eq_self]
    intro a ha
    exact (List.mem_filter.mp ha).2
  have hsub3 : List.Sublist (l.filter fun b => decide (b.duration = d))
      ((sortData .time l).filter fun b => decide (b.duration = d)) := by
    have := hsub2.filter (fun b => decide (b.duration = d))
    rwa [hfp] at this
  have hlen : (l.filter (fun b => decide (b.duration = d))).length =
      ((sortData .time l).filter (fun b => decide (b.duration = d))).length :=
    (((sortData_time_perm l).filter _).length_eq).symm
  exact (hsub3.eq_of_length hlen).symm

lemma splitWsAux_ne_nil (l : List Char) :
    ∀ cur : List Char, cur ≠ [] → splitWsAux l cur ≠ [] := by
  induction l with
  | nil =>
    intro cur h
    simp [splitWsAux, h]
  | cons c rest ih =>
    intro cur h
    by_cases hw : isAsciiWs c
    · have hcur : cur.isEmpty = false := by simpa using h
      simp [splitWsAux, hw, hcur]
    · simp only [splitWsAux, hw, Bool.false_eq_true, if_false]
      exact ih (c :: cur) (by simp)

/-- A line that starts with the non-whitespace `author-time` marker has
at least one whitespace-separated token, so `last()` is `Some`. -/
lemma lastToken_isSome_of_author {x : String}
    (hx : rsStartsWith x "author-time" = true) :
    ∃ tok, lastToken x = some tok := by
  unfold rsStartsWith at hx
  have ha : "author-time".data = 'a' :: "uthor-time".data := rfl
  rw [ha] at hx
  obtain ⟨tl, htl⟩ := head_of_isPrefixOf hx
  unfold lastToken splitAsciiWhitespace
  rw [htl]
  have hnw : isAsciiWs 'a' = false := by decide
  have hstep : splitWsAux ('a' :: tl) [] = splitWsAux tl ['a'] := by
    simp [splitWsAux, hnw]
  rw [hstep]
  have hne : splitWsAux tl ['a'] ≠ [] := splitWsAux_ne_nil tl ['a'] (by simp)
  have hmap : (splitWsAux tl ['a']).map (fun l => (⟨l⟩ : String)) ≠ [] := by
    simpa using hne
  have := List.getLast?_isSome.mpr hmap
  exact Option.isSome_iff_exists.mp this

/-- If some `author-time` line carries a final token that does not parse
as a timestamp, the scan loop aborts with the malformed-timestamp error,
and the token it names is the final token of such a line. -/
lemma blameLoop_error_of_bad (now : Int) :
    ∀ (lines : List String) (dur : Option Int) (fp : Bool),
      (∃ x ∈ lines, rsStartsWith x "author-time" = true ∧
        ∃ tok, lastToken x = some tok ∧ parseTimestamp tok = none) →
      ∃ tok, blameLoop now lines dur fp =
          .error ("Unable to parse timestamp: " ++ tok) ∧
        ∃ x ∈ lines, rsStartsWith x "author-time" = true ∧
          lastToken x = some tok ∧ parseTimestamp tok = none
  | [], dur, fp, h => by simp at h
  | x :: rest, dur, fp, h => by
    by_cases hx : rsStartsWith x "author-time" = true
    · obtain ⟨tok, htok⟩ := lastToken_isSome_of_author hx
      cases ht : parseTimestamp tok with
      | none =>
        refine ⟨tok, ?_, x, List.mem_cons_self x rest, hx, htok, ht⟩
        simp [blameLoop, hx, htok, ht]
      | some t =>
        obtain ⟨y, hy, hya, tok', htok', ht'⟩ := h
        have hyr : y ∈ rest := by
          rcases List.mem_cons.mp hy with rfl | hyr
          · rw [htok] at htok'
            injection htok' with e
            subst e
            rw [ht] at ht'
            cases ht'
          · exact hyr
        obtain ⟨tok'', h1, z, hz, hz2⟩ :=
          blameLoop_error_of_bad now rest (some (now - t)) fp
            ⟨y, hyr, hya, tok', htok', ht'⟩
        refine ⟨tok'', ?_, z, List.mem_cons_of_mem x hz, hz2⟩
        simpa [blameLoop, hx, htok, ht] using h1
    · obtain ⟨y, hy, hya, tok', htok', ht'⟩ := h
      have hyr : y ∈ rest := by
        rcases List.mem_cons.mp hy with rfl | hyr
        · exact absurd hya hx
        · exact hyr
      have hx' : rsStartsWith x "author-time" = false := by
        simpa using hx
      by_cases hp : rsStartsWith x "previous" = true
      · obtain ⟨tok'', h1, z, hz, hz2⟩ :=
          blameLoop_error_of_bad now rest dur true
            ⟨y, hyr, hya, tok', htok', ht'⟩
        refine ⟨tok'', ?_, z, List.mem_cons_of_mem x hz, hz2⟩
        simpa [blameLoop, hx', hp] using h1
      · have hp' : rsStartsWith x "previous" = false := by
          simpa using hp
        obtain ⟨tok'', h1, z, hz, hz2⟩ :=
          blameLoop_error_of_bad now rest dur fp
            ⟨y, hyr, hya, tok', htok', ht'⟩
        refine ⟨tok'', ?_, z, List.mem_cons_of_mem x hz, hz2⟩
        simpa [blameLoop, hx', hp'] using h1

/-- C8 (counterexample): for the line `author-time abc` the error message
is `Unable to parse timestamp: abc` — it names the offending final token,
and the offending line itself does not occur in the message. -/
theorem malformed_names_token_not_line :
    get_password_age "p" 0 ⟨true, ["author-time abc"], ""⟩ =
      .error "Unable to parse timestamp: abc" ∧
    ¬ ("author-time abc".data <:+: "Unable to parse timestamp: abc".data) :=
  ⟨rfl, by decide⟩

/-- C8 (amended): raw blame text containing an `author-time` line whose
final whitespace-separated token does not parse as a timestamp makes
parsing fail with a cannot-extract-timestamp error naming the offending
token (the final token of such a line). -/
theorem parse_malformed_author_time (name : String) (now : Int)
    (stderr : String) (lines : List String)
    (h : ∃ x ∈ lines, rsStartsWith x "author-time" = true ∧
      ∃ tok, lastToken x = some tok ∧ parseTimestamp tok = none) :
    ∃ tok, get_password_age name now ⟨true, lines, stderr⟩ =
        .error ("Unable to parse timestamp: " ++ tok) ∧
      ∃ x ∈ lines, rsStartsWith x "author-time" = true ∧
        lastToken x = some tok ∧ parseTimestamp tok = none := by
  obtain ⟨tok, h1, h2⟩ := blameLoop_error_of_bad now lines none false h
  refine ⟨tok, ?_, h2⟩
  unfold get_password_age
  simp [h1]

/-- Witness for C8 (amended) at a concrete input. -/
theorem parse_malformed_author_time_witness :
    ∃ tok, get_password_age "p" 0 ⟨true, ["x 1", "author-time abc"], ""⟩ =
        .error ("Unable to parse timestamp: " ++ tok) ∧
      ∃ x ∈ ["x 1", "author-time abc"], rsStartsWith x "author-time" = true ∧
        lastToken x = some tok ∧ parseTimestamp tok = none :=
  parse_malformed_author_time "p" 0 "" ["x 1", "author-time abc"]
    ⟨"author-time abc", by decide, by decide, "abc", by decide, by decide⟩

/-- C9: a `git` run exiting non-zero surfaces its own stderr text as the
failure message; a failing entry (glob error or failing query/parse)
contributes no record and exactly one reported message, and the entries
before and after it are processed exactly as they would be on their own. -/
theorem per_file_failure_skips (blame : String → Except String BlameData)
    (pre post : List GlobEntry) (p m : String) (hm : blame p = .error m) :
    (∀ (name : String) (now : Int) (lines : List String) (errText : String),
      get_password_age name now ⟨false, lines, errText⟩ = .error errText) ∧
    processEntries blame (pre ++ .ok p :: post) =
      ((processEntries blame pre).1 ++ (processEntries blame post).1,
       (processEntries blame pre).2 ++ m :: (processEntries blame post).2) ∧
    processEntries blame (pre ++ .err m :: post) =
      ((processEntries blame pre).1 ++ (processEntries blame post).1,
       (processEntries blame pre).2 ++ m :: (processEntries blame post).2) := by
  refine ⟨fun name now lines errText => rfl, ?_, ?_⟩
  · rw [processEntries_append]
    simp [processEntries, hm]
  · rw [processEntries_append]
    simp [processEntries]

/-- Witness for C9 at a concrete failing query. -/
theorem per_file_failure_skips_witness :
    processEntries (fun _ => .error "boom") [.ok "f"] = ([], ["boom"]) := by
  have h := (per_file_failure_skips (fun _ => .error "boom") [] [] "f" "boom"
    rfl).2.1
  exact h

/-- C10: a timestamp later than the moment of measurement yields a
negative elapsed duration that is stored unmodified (no clamping), and
the time sort handles it by ordinary signed comparison, permuting the
records and ordering them by signed duration. -/
theorem negative_elapsed_passthrough (name : String) (now t : Int)
    (stderr : String) (pre post : List String) (l tok : String)
    (hpre : ∀ x ∈ pre, rsStartsWith x "author-time" = false)
    (hpost : ∀ x ∈ post, rsStartsWith x "author-time" = false)
    (hl : rsStartsWith l "author-time" = true)
    (htok : lastToken l = some tok)
    (ht : parseTimestamp tok = some t)
    (hfuture : now < t) :
    get_password_age name now ⟨true, pre ++ l :: post, stderr⟩ =
      .ok ⟨name, now - t,
        (pre ++ l :: post).any fun x => rsStartsWith x "previous"⟩ ∧
    now - t < 0 ∧
    ∀ data : List BlameData,
      (sortData .time data).Perm data ∧
      (sortData .time data).Pairwise fun a b => a.duration ≤ b.duration :=
  ⟨get_password_age_ok name now t stderr pre post l tok hpre hpost hl htok ht,
   by omega,
   fun data => ⟨sortData_time_perm data, sortData_time_sorted data⟩⟩

/-- Witness for C10 at a concrete future-dated commit. -/
theorem negative_elapsed_passthrough_witness :
    get_password_age "p" 100 ⟨true, ["author-time 200"], ""⟩ =
      .ok ⟨"p", -100, false⟩ ∧ (-100 : Int) < 0 := by
  have h := negative_elapsed_passthrough "p" 100 200 "" [] []
    "author-time 200" "200" (by decide) (by decide) (by decide) (by decide)
    (by decide) (by decide)
  exact ⟨h.1, by norm_num⟩

end PassAge
